import Mathlib

/-!
Verification of the notification placement coordinator of `creak`
(`src/main.rs`): the stack ledger store, the liveness/expiry filter, the
slot reservation protocol, the placement poller's offset recomputation,
lease release, the clear control command, and the JSON persistence layer.

The embedding is shallow: each Rust function is translated into a pure
Lean function.  Machine integers are modelled as `Nat`/`Int`; the `u64`
counter arithmetic of `next_id` is taken modulo `2^64` and
`u64::saturating_add` is modelled explicitly.  The cross-process file
lock only serializes access; each ledger transaction is a pure function
from the loaded state to the saved state, which is what is modelled
here.  OS effects (the `kill`-based liveness probe and the SIGTERM
delivery) are modelled as oracles passed in as functions: for a probe
with signal 0, POSIX `kill` either succeeds or fails with `EPERM` or
`ESRCH`, which is the three-valued outcome type used below.
-/

namespace Creak

/-- `2^64`, the modulus of Rust `u64` arithmetic. -/
def U64 : Nat := 2 ^ 64

/-- `u64::saturating_add` from `expires_at = now.saturating_add(timeout_ms)`. -/
def saturating_add_u64 (a b : Nat) : Nat := min (a + b) (U64 - 1)

/-- Outcome of the zero-effect probe `libc::kill(pid, 0)`:
success, or failure with `EPERM` (no permission) or `ESRCH` (no such
process) — the only failures POSIX specifies for signal 0 on a pid. -/
inductive ProbeResult where
  | ok
  | eperm
  | esrch
deriving DecidableEq, Repr

/-- Outcome of `libc::kill(pid, SIGTERM)`: success, failure with
`ESRCH`, or any other failure (e.g. `EPERM`). -/
inductive SigResult where
  | ok
  | esrch
  | failed
deriving DecidableEq, Repr

/-- Rust `StackEntry` (src/main.rs, lines 106-123).  The Rust field
`class` is a Lean keyword; it is named `cls` here. -/
structure StackEntry where
  id : Nat
  position : String
  height : Int
  gap : Int
  expires_at : Nat
  created_at : Nat
  pid : Nat
  name : Option String
  cls : Option String
  summary : String
deriving DecidableEq, Repr

/-- Rust `StackState` (lines 125-129). -/
structure StackState where
  next_id : Nat
  entries : List StackEntry
deriving DecidableEq, Repr

/-- `StackState::default()` (lines 131-138): `next_id = 1`, no entries. -/
def StackState.default : StackState := { next_id := 1, entries := [] }

/-- The `Position` enum (lines 42-53). -/
inductive Position where
  | topLeft | top | topRight | left | center | right
  | bottomLeft | bottom | bottomRight | dfault
deriving DecidableEq, Repr

/-- `position_key` (lines 1114-1127). -/
def position_key : Position → String
  | .topLeft => "top-left"
  | .top => "top"
  | .topRight => "top-right"
  | .left => "left"
  | .center => "center"
  | .right => "right"
  | .bottomLeft => "bottom-left"
  | .bottom => "bottom"
  | .bottomRight => "bottom-right"
  | .dfault => "default"

/-- `process_alive` (lines 1219-1229): pid 0 is always alive; otherwise
alive iff the probe succeeds (`rc == 0`) or errno is `EPERM`. -/
def process_alive (probe : Nat → ProbeResult) (pid : Nat) : Bool :=
  if pid = 0 then true
  else
    match probe pid with
    | .ok => true
    | .eperm => true
    | .esrch => false

/-- The retention predicate of `prune_entries` (lines 1231-1236). -/
def keep_entry (probe : Nat → ProbeResult) (now : Nat) (e : StackEntry) : Bool :=
  (e.expires_at == 0 || decide (now < e.expires_at)) && process_alive probe e.pid

/-- `prune_entries` (lines 1231-1236): retain entries that are not
expired and whose owner process is alive. -/
def prune_entries (probe : Nat → ProbeResult) (now : Nat) (s : StackState) : StackState :=
  { s with entries := s.entries.filter (keep_entry probe now) }

/-- The `retain` in `StackGuard::drop` (line 195): remove the entries
whose id equals the guard's id. -/
def release_entry (id : Nat) (s : StackState) : StackState :=
  { s with entries := s.entries.filter (fun e => e.id != id) }

/-- `StackGuard::drop` (lines 191-200): if locking fails the ledger is
left untouched and no error escapes; otherwise the guard's entry is
retained away and the state saved (a save failure is discarded with
`let _ =`).  `load_state` as written never returns `Err`, so the load
branch always proceeds. -/
def stack_guard_drop (lock_ok : Bool) (id : Nat) (s : StackState) : StackState :=
  if lock_ok then release_entry id s else s

/-- The inputs of one call to `reserve_stack_slot` (lines 1300-1309).
`self_pid` stands for `std::process::id()` and `now` for `now_millis()`. -/
structure ReserveReq where
  position : Position
  height : Int
  gap : Int
  timeout_ms : Nat
  now : Nat
  name : Option String
  cls : Option String
  summary : String
  self_pid : Nat
deriving DecidableEq, Repr

/-- The offset loop of `reserve_stack_slot` (lines 1316-1319):
`offset += entry.height + entry.gap` over entries whose position equals
the key, in insertion order. -/
def reserve_offset_loop (key : String) (entries : List StackEntry) : Int :=
  entries.foldl (fun offset e => if e.position == key then offset + (e.height + e.gap) else offset) 0

/-- The record pushed by `reserve_stack_slot` (lines 1324-1335). -/
def new_entry (r : ReserveReq) (id : Nat) : StackEntry :=
  { id := id, position := position_key r.position, height := r.height, gap := r.gap
  , expires_at := saturating_add_u64 r.now r.timeout_ms
  , created_at := r.now, pid := r.self_pid
  , name := r.name, cls := r.cls, summary := r.summary }

/-- `reserve_stack_slot` (lines 1300-1347): under the lock, load, prune,
sum `(height+gap)` over same-position entries, take `next_id` as the new
id, bump the counter (`u64` arithmetic), append the new entry and save.
Returns `(offset, id, saved state)`. -/
def reserve_stack_slot (probe : Nat → ProbeResult) (r : ReserveReq) (s : StackState) :
    Int × Nat × StackState :=
  let s1 := prune_entries probe r.now s
  let key := position_key r.position
  let offset := reserve_offset_loop key s1.entries
  let id := s1.next_id
  (offset, id, { next_id := (s1.next_id + 1) % U64, entries := s1.entries ++ [new_entry r id] })

/-- Repeated reservation: fold `reserve_stack_slot` over a list of
requests, collecting the returned `(offset, id)` pairs. -/
def run_reserves (probe : Nat → ProbeResult) : List ReserveReq → StackState → List (Int × Nat) × StackState
  | [], s => ([], s)
  | r :: rest, s =>
    let out := reserve_stack_slot probe r s
    let tail := run_reserves probe rest out.2.2
    ((out.1, out.2.1) :: tail.1, tail.2)

/-- The in-process lease handle `StackGuard` (lines 140-145), reduced to
the fields the ledger logic reads. -/
structure StackGuard where
  id : Nat
  position : String
deriving DecidableEq, Repr

/-- The loop of `stack_offset_for_id` (lines 1352-1361): walk the
entries in order, skip other positions, stop at the guard's id,
accumulate `height + gap` of the same-position entries passed. -/
def stack_offset_loop (pos : String) (id : Nat) : List StackEntry → Int
  | [] => 0
  | e :: rest =>
    if e.position != pos then stack_offset_loop pos id rest
    else if e.id == id then 0
    else e.height + e.gap + stack_offset_loop pos id rest

/-- `stack_offset_for_id` (lines 1349-1363): the placement poller's
recomputation.  It loads the state under the lock and runs the loop;
note that, unlike `reserve`, `list` and `clear`, it does NOT call
`prune_entries` first. -/
def stack_offset_for_id (g : StackGuard) (s : StackState) : Int :=
  stack_offset_loop g.position g.id s.entries

/-- `list_active_entries` (lines 1238-1248): load, prune (saving the
state back when it shrank), return the remaining entries. -/
def list_active_entries (probe : Nat → ProbeResult) (now : Nat) (s : StackState) :
    List StackEntry :=
  (prune_entries probe now s).entries

/-- `ClearSelector` (lines 1250-1254); `Class` is spelt `cls`. -/
inductive ClearSelector where
  | id (id : Nat)
  | name (n : String)
  | cls (c : String)
deriving DecidableEq, Repr

/-- `clear_matches` (lines 1256-1262). -/
def clear_matches (e : StackEntry) : ClearSelector → Bool
  | .id i => e.id == i
  | .name n => e.name == some n
  | .cls c => e.cls == some c

/-- `send_sigterm` (lines 1264-1277): pid 0 is a no-op; success and
`ESRCH` are swallowed; any other failure is an error. -/
def send_sigterm (term : Nat → SigResult) (pid : Nat) : Except Unit Unit :=
  if pid = 0 then .ok ()
  else
    match term pid with
    | .ok => .ok ()
    | .esrch => .ok ()
    | .failed => .error ()

/-- The loop of `clear_active_entries` (lines 1285-1295): matching
entries are signalled (`send_sigterm(entry.pid)?` propagates a failure)
and counted; the others are kept in order. -/
def clear_loop (term : Nat → SigResult) (sel : ClearSelector) :
    List StackEntry → Except Unit (Nat × List StackEntry)
  | [] => .ok (0, [])
  | e :: rest =>
    if clear_matches e sel then
      match send_sigterm term e.pid with
      | .error _ => .error ()
      | .ok _ =>
        match clear_loop term sel rest with
        | .error _ => .error ()
        | .ok out => .ok (out.1 + 1, out.2)
    else
      match clear_loop term sel rest with
      | .error _ => .error ()
      | .ok out => .ok (out.1, e :: out.2)

/-- `clear_active_entries` (lines 1279-1298): load, prune, run the
removal loop, save, return the count removed (a signalling failure
aborts the transaction before the save). -/
def clear_active_entries (probe : Nat → ProbeResult) (term : Nat → SigResult)
    (now : Nat) (sel : ClearSelector) (s : StackState) : Except Unit (Nat × StackState) :=
  let s1 := prune_entries probe now s
  match clear_loop term sel s1.entries with
  | .error _ => .error ()
  | .ok out => .ok (out.1, { s1 with entries := out.2 })

/-- The stacking gate of `run_alert` (lines 525-541): a slot is reserved
only when `cfg.stack && cfg.timeout_ms > 0`; otherwise the offset stays
0 and no guard is created.  (The `Err` fallback of the reservation is an
I/O failure of the lock/save and does not arise in the pure model.) -/
def run_alert_stacking (probe : Nat → ProbeResult) (stack : Bool) (r : ReserveReq)
    (s : StackState) : Int × Option StackGuard × StackState :=
  if stack && decide (0 < r.timeout_ms) then
    let out := reserve_stack_slot probe r s
    (out.1, some { id := out.2.1, position := position_key r.position }, out.2.2)
  else
    (0, none, s)

/-! ## JSON persistence (`load_state` / `save_state`)

`serde_json` values are modelled by a small JSON AST with integer
numbers (a fractional number in a numeric field is a deserialization
error in serde, and none of the encoders below produce one).  Required
fields of the derived `Deserialize` are `next_id`, `entries`, and for an
entry `id`, `position`, `height`, `gap`, `expires_at`; the fields marked
`#[serde(default)]` (`created_at`, `pid`, `name`, `class`, `summary`)
default to zero/empty/`None` when absent.  Unknown fields are ignored,
`Option<String>` accepts `null` as `None`, and out-of-range numbers are
deserialization errors. -/

/-- A JSON value, as far as the ledger schema needs one. -/
inductive Json where
  | null
  | bool (b : Bool)
  | num (n : Int)
  | str (s : String)
  | arr (elems : List Json)
  | obj (fields : List (String × Json))

/-- Field lookup in a JSON object (first occurrence). -/
def jlookup (key : String) : List (String × Json) → Option Json
  | [] => none
  | f :: rest => if f.1 == key then some f.2 else jlookup key rest

/-- Deserialize a `u64` field: a non-negative integer below `2^64`. -/
def as_u64 : Json → Option Nat
  | .num (Int.ofNat n) => if n < 2 ^ 64 then some n else none
  | _ => none

/-- Deserialize a `u32` field: a non-negative integer below `2^32`. -/
def as_u32 : Json → Option Nat
  | .num (Int.ofNat n) => if n < 2 ^ 32 then some n else none
  | _ => none

/-- Deserialize an `i32` field: an integer in `[-2^31, 2^31)`. -/
def as_i32 : Json → Option Int
  | .num (Int.ofNat n) => if n < 2 ^ 31 then some (Int.ofNat n) else none
  | .num (Int.negSucc n) => if n < 2 ^ 31 then some (Int.negSucc n) else none
  | _ => none

/-- Deserialize a `String` field. -/
def as_string : Json → Option String
  | .str s => some s
  | _ => none

/-- Deserialize an `Option<String>` field (`null` is `None`). -/
def as_opt_string : Json → Option (Option String)
  | .null => some none
  | .str s => some (some s)
  | _ => none

/-- A required `u64` field. -/
def field_u64 (fs : List (String × Json)) (key : String) : Option Nat :=
  (jlookup key fs).bind as_u64

/-- A required `String` field. -/
def field_string (fs : List (String × Json)) (key : String) : Option String :=
  (jlookup key fs).bind as_string

/-- A required `i32` field. -/
def field_i32 (fs : List (String × Json)) (key : String) : Option Int :=
  (jlookup key fs).bind as_i32

/-- A `#[serde(default)]` `u64` field: absent means 0. -/
def field_u64_default (fs : List (String × Json)) (key : String) : Option Nat :=
  match jlookup key fs with
  | none => some 0
  | some j => as_u64 j

/-- A `#[serde(default)]` `u32` field: absent means 0. -/
def field_u32_default (fs : List (String × Json)) (key : String) : Option Nat :=
  match jlookup key fs with
  | none => some 0
  | some j => as_u32 j

/-- A `#[serde(default)]` `Option<String>` field: absent means `None`. -/
def field_opt_string (fs : List (String × Json)) (key : String) : Option (Option String) :=
  match jlookup key fs with
  | none => some none
  | some j => as_opt_string j

/-- A `#[serde(default)]` `String` field: absent means the empty string. -/
def field_string_default (fs : List (String × Json)) (key : String) : Option String :=
  match jlookup key fs with
  | none => some ""
  | some j => as_string j

/-- Derived `Deserialize` for `StackEntry`, with the `#[serde(default)]`
fields defaulting when absent. -/
def decode_entry : Json → Option StackEntry
  | .obj fs => do
    let id ← field_u64 fs "id"
    let position ← field_string fs "position"
    let height ← field_i32 fs "height"
    let gap ← field_i32 fs "gap"
    let expires_at ← field_u64 fs "expires_at"
    let created_at ← field_u64_default fs "created_at"
    let pid ← field_u32_default fs "pid"
    let name ← field_opt_string fs "name"
    let cls ← field_opt_string fs "class"
    let summary ← field_string_default fs "summary"
    some { id := id, position := position, height := height, gap := gap
         , expires_at := expires_at, created_at := created_at, pid := pid
         , name := name, cls := cls, summary := summary }
  | _ => none

/-- Deserialize `Vec<StackEntry>` elementwise (any element failing fails
the whole vector). -/
def decode_entries : List Json → Option (List StackEntry)
  | [] => some []
  | j :: rest =>
    match decode_entry j with
    | none => none
    | some e =>
      match decode_entries rest with
      | none => none
      | some es => some (e :: es)

/-- The required `entries` field: must be an array of entries. -/
def field_entries (fs : List (String × Json)) : Option (List StackEntry) :=
  match jlookup "entries" fs with
  | some (.arr xs) => decode_entries xs
  | _ => none

/-- Derived `Deserialize` for `StackState`. -/
def decode_state : Json → Option StackState
  | .obj fs => do
    let next_id ← field_u64 fs "next_id"
    let entries ← field_entries fs
    some { next_id := next_id, entries := entries }
  | _ => none

/-- Derived `Serialize` for `Option<String>` (`None` becomes `null`). -/
def encode_opt_string : Option String → Json
  | none => .null
  | some s => .str s

/-- The serialized fields of a `StackEntry` (declaration order). -/
def encode_fields (e : StackEntry) : List (String × Json) :=
  [ ("id", .num e.id), ("position", .str e.position)
  , ("height", .num e.height), ("gap", .num e.gap)
  , ("expires_at", .num e.expires_at), ("created_at", .num e.created_at)
  , ("pid", .num e.pid), ("name", encode_opt_string e.name)
  , ("class", encode_opt_string e.cls), ("summary", .str e.summary) ]

/-- Derived `Serialize` for `StackEntry`. -/
def encode_entry (e : StackEntry) : Json :=
  .obj (encode_fields e)

/-- Derived `Serialize` for `StackState`. -/
def encode_state (s : StackState) : Json :=
  .obj [ ("next_id", .num s.next_id), ("entries", .arr (s.entries.map encode_entry)) ]

/-- The content of the ledger file, as `load_state` (lines 1178-1196)
discriminates it: unreadable/absent, readable but blank after trimming,
readable but not parseable as JSON, or a parsed JSON value. -/
inductive FileData where
  | absent
  | blank
  | invalid
  | parsed (j : Json)

/-- `load_state` (lines 1178-1196): every failure path self-heals to
`StackState::default()`; a parsed JSON value that does not deserialize
into `StackState` also falls back to the default. -/
def load_state : FileData → StackState
  | .absent => StackState.default
  | .blank => StackState.default
  | .invalid => StackState.default
  | .parsed j =>
    match decode_state j with
    | some s => s
    | none => StackState.default

/-- `save_state` (lines 1198-1204): serialize and atomically replace the
file; the file then parses back as exactly the serialized JSON value. -/
def save_state (s : StackState) : FileData := .parsed (encode_state s)

/-- Range constraints the Rust field types impose on an entry: `u64`,
`u32` and `i32` fields hold machine-representable values. -/
def EntryWF (e : StackEntry) : Prop :=
  e.id < U64 ∧ e.expires_at < U64 ∧ e.created_at < U64 ∧ e.pid < 2 ^ 32 ∧
    -(2 ^ 31) ≤ e.height ∧ e.height < 2 ^ 31 ∧ -(2 ^ 31) ≤ e.gap ∧ e.gap < 2 ^ 31

/-- Range constraints on a whole ledger state. -/
def StateWF (s : StackState) : Prop :=
  s.next_id < U64 ∧ ∀ e ∈ s.entries, EntryWF e

/-! ## `message_summary`

Rust strings are modelled as lists of Unicode scalar values; the byte
length of Rust `str::len` is the summed UTF-8 size.  `String::truncate`
panics when the new length falls inside a multi-byte character, so the
model returns `Option`: `none` is a panic. -/

/-- The Unicode `White_Space` property, i.e. Rust `char::is_whitespace`. -/
def rust_is_whitespace (c : Char) : Bool :=
  c == ' ' || (9 ≤ c.toNat && c.toNat ≤ 13) || c.toNat == 0x85 || c.toNat == 0xA0 ||
    c.toNat == 0x1680 || (0x2000 ≤ c.toNat && c.toNat ≤ 0x200A) || c.toNat == 0x2028 ||
    c.toNat == 0x2029 || c.toNat == 0x202F || c.toNat == 0x205F || c.toNat == 0x3000

/-- `message.lines().next().unwrap_or_default()`: the characters before
the first newline, with the `\r` of a terminating `\r\n` stripped (an
unterminated final line keeps a trailing `\r`). -/
def first_line (msg : List Char) : List Char :=
  let l := msg.takeWhile (fun c => c != '\n')
  if l.length = msg.length then l
  else if l.getLast? == some '\r' then l.dropLast else l

/-- `str::trim`: strip `White_Space` characters from both ends. -/
def rust_trim (l : List Char) : List Char :=
  ((l.dropWhile rust_is_whitespace).reverse.dropWhile rust_is_whitespace).reverse

/-- UTF-8 byte length of `str::len`. -/
def utf8_len (l : List Char) : Nat := (l.map Char.utf8Size).sum

/-- The longest character-aligned chunk of at most `n` UTF-8 bytes. -/
def take_bytes (n : Nat) : List Char → List Char
  | [] => []
  | c :: cs => if c.utf8Size ≤ n then c :: take_bytes (n - c.utf8Size) cs else []

/-- `message_summary` (lines 1206-1217): first line, trimmed, then
`truncate(120)` when longer than 120 bytes.  `String::truncate` panics
(`none`) when byte 120 is not a character boundary, i.e. when the
aligned chunk of the first 120 bytes stops short of 120. -/
def message_summary (msg : List Char) : Option (List Char) :=
  let s := rust_trim (first_line msg)
  if utf8_len s ≤ 120 then some s
  else if utf8_len (take_bytes 120 s) = 120 then some (take_bytes 120 s)
  else none

/-! ## Spec-side formulations

The spec states offsets as mathematical sums over the same-class
entries; these definitions follow the spec's words and are compared with
the loops translated from the source above. -/

/-- Spec: the sum of `(extent+gap)` over the entries of a position
class, in insertion order. -/
def spec_class_sum (key : String) (entries : List StackEntry) : Int :=
  ((entries.filter (fun e => e.position == key)).map (fun e => e.height + e.gap)).sum

/-- Spec: the sum of `(extent+gap)` over same-class entries inserted
strictly before a given id. -/
def spec_offset_before (pos : String) (id : Nat) (entries : List StackEntry) : Int :=
  ((entries.filter (fun e => e.position == pos && decide (e.id < id))).map
    (fun e => e.height + e.gap)).sum

/-! ## Helper lemmas -/

lemma filter_idem {α : Type} (p : α → Bool) (l : List α) :
    (l.filter p).filter p = l.filter p := by
  induction l with
  | nil => rfl
  | cons a l ih =>
    cases h : p a with
    | true => simp [List.filter_cons, h, ih]
    | false => simp [List.filter_cons, h, ih]

lemma reserve_offset_foldl (key : String) (entries : List StackEntry) (a : Int) :
    entries.foldl
        (fun offset e => if e.position == key then offset + (e.height + e.gap) else offset) a
      = a + spec_class_sum key entries := by
  induction entries generalizing a with
  | nil => simp [spec_class_sum]
  | cons e rest ih =>
    rw [List.foldl_cons]
    by_cases h : e.position = key
    · have hc : (e.position == key) = true := by simp [h]
      rw [if_pos hc, ih]
      have hfilter : List.filter (fun e => e.position == key) (e :: rest)
          = e :: List.filter (fun e => e.position == key) rest := by
        simp [List.filter_cons, hc]
      simp only [spec_class_sum, hfilter, List.map_cons, List.sum_cons]
      ring
    · have hc : (e.position == key) = false := by simp [h]
      rw [if_neg (by simp [hc]), ih]
      have hfilter : List.filter (fun e => e.position == key) (e :: rest)
          = List.filter (fun e => e.position == key) rest := by
        simp [List.filter_cons, hc]
      simp only [spec_class_sum, hfilter]

lemma reserve_offset_loop_eq (key : String) (entries : List StackEntry) :
    reserve_offset_loop key entries = spec_class_sum key entries := by
  have h := reserve_offset_foldl key entries 0
  simpa [reserve_offset_loop] using h

lemma reserve_eq (probe : Nat → ProbeResult) (r : ReserveReq) (s : StackState) :
    reserve_stack_slot probe r s
      = (reserve_offset_loop (position_key r.position)
            (List.filter (keep_entry probe r.now) s.entries),
         s.next_id,
         { next_id := (s.next_id + 1) % U64
         , entries := List.filter (keep_entry probe r.now) s.entries
             ++ [new_entry r s.next_id] }) := rfl

lemma filter_filter_of_imp {α : Type} (p q : α → Bool)
    (h : ∀ x, p x = true → q x = true) (l : List α) :
    (l.filter q).filter p = l.filter p := by
  induction l with
  | nil => rfl
  | cons a l ih =>
    by_cases hp : p a = true
    · have hq : q a = true := h a hp
      simp [List.filter_cons, hp, hq, ih]
    · have hp' : p a = false := by revert hp; cases p a <;> simp
      cases hq : q a <;> simp [List.filter_cons, hp', hq, ih]

lemma keep_entry_mono (probe : Nat → ProbeResult) {n1 n2 : Nat} (h : n1 ≤ n2)
    (e : StackEntry) (hk : keep_entry probe n2 e = true) : keep_entry probe n1 e = true := by
  simp only [keep_entry, Bool.and_eq_true, Bool.or_eq_true, beq_iff_eq,
    decide_eq_true_eq] at hk ⊢
  refine ⟨?_, hk.2⟩
  rcases hk.1 with h0 | hlt
  · exact Or.inl h0
  · exact Or.inr (by omega)

lemma spec_class_sum_append (key : String) (l1 l2 : List StackEntry) :
    spec_class_sum key (l1 ++ l2) = spec_class_sum key l1 + spec_class_sum key l2 := by
  simp [spec_class_sum]

lemma spec_class_sum_single_ne (key : String) (e : StackEntry)
    (he : e.position ≠ key) (p : StackEntry → Bool) :
    spec_class_sum key (List.filter p [e]) = 0 := by
  cases hp : p e <;> simp [List.filter_cons, hp, spec_class_sum, he]

lemma run_reserves_ids (probe : Nat → ProbeResult) :
    ∀ (reqs : List ReserveReq) (s : StackState), s.next_id + reqs.length ≤ U64 →
      (run_reserves probe reqs s).1.map Prod.snd = List.range' s.next_id reqs.length
  | [], _, _ => rfl
  | r :: rest, s, h => by
    have hfst : (run_reserves probe (r :: rest) s).1.map Prod.snd
        = s.next_id
            :: (run_reserves probe rest (reserve_stack_slot probe r s).2.2).1.map Prod.snd := rfl
    rw [hfst]
    cases rest with
    | nil => rfl
    | cons r2 rest2 =>
      have hlt : s.next_id + 1 < U64 := by
        simp only [List.length_cons] at h; omega
      have hnext : (reserve_stack_slot probe r s).2.2.next_id = s.next_id + 1 := by
        rw [reserve_eq]
        exact Nat.mod_eq_of_lt hlt
      have htail := run_reserves_ids probe (r2 :: rest2) (reserve_stack_slot probe r s).2.2
        (by rw [hnext]; simp only [List.length_cons] at h ⊢; omega)
      rw [htail, hnext]
      rfl

/-! ## Claims -/

/-- C1: each reservation returns as offset the sum of `(height+gap)`
over the still-present same-class entries of the pruned ledger, in
insertion order; a preceding reservation in another position class does
not change the offset; the assigned id is the persisted `next_id`
counter, which is then incremented; and over any run of reservations not
exhausting the `u64` counter the assigned ids are consecutive, strictly
increasing and pairwise distinct. -/
theorem claim_C1 (probe : Nat → ProbeResult) :
    (∀ r s, (reserve_stack_slot probe r s).1
        = spec_class_sum (position_key r.position) (prune_entries probe r.now s).entries)
    ∧ (∀ r q s, position_key q.position ≠ position_key r.position → q.now ≤ r.now →
        (reserve_stack_slot probe r (reserve_stack_slot probe q s).2.2).1
          = (reserve_stack_slot probe r s).1)
    ∧ (∀ r s, (reserve_stack_slot probe r s).2.1 = s.next_id
        ∧ (reserve_stack_slot probe r s).2.2.next_id = (s.next_id + 1) % U64)
    ∧ (∀ reqs s, s.next_id + reqs.length ≤ U64 →
        (run_reserves probe reqs s).1.map Prod.snd = List.range' s.next_id reqs.length
        ∧ ((run_reserves probe reqs s).1.map Prod.snd).Pairwise (· < ·)
        ∧ ((run_reserves probe reqs s).1.map Prod.snd).Nodup) := by
  refine ⟨?_, ?_, ?_, ?_⟩
  · intro r s
    rw [reserve_eq]
    exact reserve_offset_loop_eq _ _
  · intro r q s hne hqr
    have hne' : (new_entry q s.next_id).position ≠ position_key r.position := hne
    rw [reserve_eq probe q s, reserve_eq probe r, reserve_eq probe r s]
    simp only [reserve_offset_loop_eq]
    rw [List.filter_append, spec_class_sum_append, spec_class_sum_single_ne _ _ hne',
      filter_filter_of_imp _ _ (fun x hx => keep_entry_mono probe hqr x hx), add_zero]
  · intro r s
    exact ⟨rfl, rfl⟩
  · intro reqs s hcap
    have hids := run_reserves_ids probe reqs s hcap
    refine ⟨hids, ?_, ?_⟩
    · rw [hids]; exact List.pairwise_lt_range' _ _
    · rw [hids]; exact List.nodup_range' ..

/-- C1 witness: two reservations in class "top" then one in class
"bottom" on the empty ledger: the counter-capacity hypothesis holds, the
ids come out as `[1, 2, 3]`, the cross-class hypotheses hold and the
second "top" offset is unchanged by an interposed "bottom"
reservation. -/
theorem claim_C1_witness :
    StackState.default.next_id +
        ([⟨.top, 50, 10, 5000, 1000, none, none, "", 7⟩,
          ⟨.bottom, 20, 4, 5000, 1001, none, none, "", 7⟩,
          ⟨.top, 30, 5, 5000, 1002, none, none, "", 7⟩] : List ReserveReq).length ≤ U64
    ∧ (run_reserves (fun _ => .ok)
          [⟨.top, 50, 10, 5000, 1000, none, none, "", 7⟩,
           ⟨.bottom, 20, 4, 5000, 1001, none, none, "", 7⟩,
           ⟨.top, 30, 5, 5000, 1002, none, none, "", 7⟩]
          StackState.default).1.map Prod.snd = List.range' 1 3
    ∧ position_key Position.bottom ≠ position_key Position.top
    ∧ (1001 : Nat) ≤ 1002
    ∧ (reserve_stack_slot (fun _ => .ok) ⟨.top, 30, 5, 5000, 1002, none, none, "", 7⟩
          ((reserve_stack_slot (fun _ => .ok) ⟨.bottom, 20, 4, 5000, 1001, none, none, "", 7⟩
            StackState.default).2.2)).1
        = (reserve_stack_slot (fun _ => .ok) ⟨.top, 30, 5, 5000, 1002, none, none, "", 7⟩
            StackState.default).1 := by
  have hcap : StackState.default.next_id +
      ([⟨.top, 50, 10, 5000, 1000, none, none, "", 7⟩,
        ⟨.bottom, 20, 4, 5000, 1001, none, none, "", 7⟩,
        ⟨.top, 30, 5, 5000, 1002, none, none, "", 7⟩] : List ReserveReq).length ≤ U64 := by
    show (1 : Nat) + 3 ≤ 2 ^ 64
    norm_num
  have hne : position_key Position.bottom ≠ position_key Position.top := by decide
  refine ⟨hcap, ?_, hne, by norm_num, ?_⟩
  · exact ((claim_C1 (fun _ => .ok)).2.2.2 _ _ hcap).1
  · exact (claim_C1 (fun _ => .ok)).2.1 _ _ _ hne (by norm_num)

lemma stack_offset_loop_sorted (pos : String) (id : Nat) :
    ∀ entries : List StackEntry,
      (entries.map StackEntry.id).Pairwise (· < ·) →
      (∃ w, w ∈ entries ∧ w.id = id ∧ w.position = pos) →
      stack_offset_loop pos id entries = spec_offset_before pos id entries := by
  intro entries
  induction entries with
  | nil =>
    intro _ hex
    obtain ⟨w, hw, _⟩ := hex
    cases hw
  | cons e rest ih =>
    intro hsort hex
    have hsort2 : (StackEntry.id e :: rest.map StackEntry.id).Pairwise (· < ·) := by
      simpa using hsort
    have hhead := (List.pairwise_cons.mp hsort2).1
    have hsort' := (List.pairwise_cons.mp hsort2).2
    obtain ⟨w, hw, hwid, hwpos⟩ := hex
    by_cases hpos : e.position = pos
    · by_cases hid : e.id = id
      · have hL : stack_offset_loop pos id (e :: rest) = 0 := by
          simp [stack_offset_loop, hpos, hid]
        have hR : spec_offset_before pos id (e :: rest) = 0 := by
          have hfr : List.filter (fun x => x.position == pos && decide (x.id < id)) rest
              = [] := by
            refine List.filter_eq_nil_iff.mpr ?_
            intro x hx
            have hxid : e.id < x.id := hhead _ (List.mem_map_of_mem _ hx)
            have : ¬(x.id < id) := by omega
            simp [this]
          simp [spec_offset_before, List.filter_cons, hid, hfr]
        rw [hL, hR]
      · have hwr : w ∈ rest := by
          cases List.mem_cons.mp hw with
          | inl h => exact absurd (h ▸ hwid) hid
          | inr h => exact h
        have hcnt : e.id < id := by
          have := hhead _ (List.mem_map_of_mem _ hwr)
          omega
        have hL : stack_offset_loop pos id (e :: rest)
            = e.height + e.gap + stack_offset_loop pos id rest := by
          simp [stack_offset_loop, hpos, hid]
        have hR : spec_offset_before pos id (e :: rest)
            = e.height + e.gap + spec_offset_before pos id rest := by
          simp [spec_offset_before, List.filter_cons, hpos, hcnt]
        rw [hL, hR, ih hsort' ⟨w, hwr, hwid, hwpos⟩]
    · have hwr : w ∈ rest := by
        cases List.mem_cons.mp hw with
        | inl h => exact absurd (h ▸ hwpos) hpos
        | inr h => exact h
      have hL : stack_offset_loop pos id (e :: rest) = stack_offset_loop pos id rest := by
        simp [stack_offset_loop, hpos]
      have hR : spec_offset_before pos id (e :: rest) = spec_offset_before pos id rest := by
        simp [spec_offset_before, List.filter_cons, hpos]
      rw [hL, hR, ih hsort' ⟨w, hwr, hwid, hwpos⟩]

/-- C2: with the ledger's ids strictly increasing in insertion order and
the lease's entry present, the poller's recomputation equals the sum of
`(height+gap)` over same-class entries still in the ledger with a
strictly smaller id; and in the §8 scenario (reserve "top" 50/10 at
offset 0 id 1, reserve "top" 30/5 at offset 60 id 2, release lease 1,
then a hypothetical id-3 "top" reservation) the recomputed offset for
id 3 is 35, not 90. -/
theorem claim_C2 :
    (∀ (g : StackGuard) (s : StackState),
        (s.entries.map StackEntry.id).Pairwise (· < ·) →
        (∃ w, w ∈ s.entries ∧ w.id = g.id ∧ w.position = g.position) →
        stack_offset_for_id g s = spec_offset_before g.position g.id s.entries)
    ∧ (reserve_stack_slot (fun _ => .ok) ⟨.top, 50, 10, 5000, 1000, none, none, "", 7⟩
        StackState.default).1 = 0
    ∧ (reserve_stack_slot (fun _ => .ok) ⟨.top, 50, 10, 5000, 1000, none, none, "", 7⟩
        StackState.default).2.1 = 1
    ∧ (reserve_stack_slot (fun _ => .ok) ⟨.top, 30, 5, 5000, 1001, none, none, "", 7⟩
        (reserve_stack_slot (fun _ => .ok) ⟨.top, 50, 10, 5000, 1000, none, none, "", 7⟩
          StackState.default).2.2).1 = 60
    ∧ (reserve_stack_slot (fun _ => .ok) ⟨.top, 30, 5, 5000, 1001, none, none, "", 7⟩
        (reserve_stack_slot (fun _ => .ok) ⟨.top, 50, 10, 5000, 1000, none, none, "", 7⟩
          StackState.default).2.2).2.1 = 2
    ∧ stack_offset_for_id { id := 3, position := "top" }
        (reserve_stack_slot (fun _ => .ok) ⟨.top, 40, 5, 5000, 1002, none, none, "", 7⟩
          (stack_guard_drop true 1
            (reserve_stack_slot (fun _ => .ok) ⟨.top, 30, 5, 5000, 1001, none, none, "", 7⟩
              (reserve_stack_slot (fun _ => .ok) ⟨.top, 50, 10, 5000, 1000, none, none, "", 7⟩
                StackState.default).2.2).2.2)).2.2 = 35 := by
  refine ⟨?_, by decide, by decide, by decide, by decide, by decide⟩
  intro g s hsort hex
  exact stack_offset_loop_sorted g.position g.id s.entries hsort hex

/-- C2 witness: the post-scenario ledger holding the id-2 and
(hypothetical) id-3 "top" entries has strictly increasing ids and
contains the id-3 lease entry, and the poller's recomputation for id 3
matches the strictly-before sum, namely 35. -/
theorem claim_C2_witness :
    ((StackState.mk 4
        [⟨2, "top", 30, 5, 6001, 1001, 7, none, none, ""⟩,
         ⟨3, "top", 40, 5, 6002, 1002, 7, none, none, ""⟩]).entries.map
        StackEntry.id).Pairwise (· < ·)
    ∧ (∃ w, w ∈ (StackState.mk 4
          [⟨2, "top", 30, 5, 6001, 1001, 7, none, none, ""⟩,
           ⟨3, "top", 40, 5, 6002, 1002, 7, none, none, ""⟩]).entries ∧
        w.id = (StackGuard.mk 3 "top").id ∧ w.position = (StackGuard.mk 3 "top").position)
    ∧ stack_offset_for_id (StackGuard.mk 3 "top")
        (StackState.mk 4
          [⟨2, "top", 30, 5, 6001, 1001, 7, none, none, ""⟩,
           ⟨3, "top", 40, 5, 6002, 1002, 7, none, none, ""⟩])
      = spec_offset_before "top" 3
          [⟨2, "top", 30, 5, 6001, 1001, 7, none, none, ""⟩,
           ⟨3, "top", 40, 5, 6002, 1002, 7, none, none, ""⟩]
    ∧ spec_offset_before "top" 3
          [⟨2, "top", 30, 5, 6001, 1001, 7, none, none, ""⟩,
           ⟨3, "top", 40, 5, 6002, 1002, 7, none, none, ""⟩] = 35 :=
  ⟨by decide, by decide,
    claim_C2.1 (StackGuard.mk 3 "top") _ (by decide) (by decide), by decide⟩

/-- C3: `prune` removes an entry iff it is time-expired
(`expires_at ≠ 0 ∧ expires_at ≤ now`) or its owner process probe says
gone; the probe reports alive on success or `EPERM`, gone only on
`ESRCH`, and pid 0 is always alive. -/
theorem claim_C3 (probe : Nat → ProbeResult) (now : Nat) (s : StackState) :
    (∀ e, e ∈ (prune_entries probe now s).entries ↔
        e ∈ s.entries ∧ ¬((e.expires_at ≠ 0 ∧ e.expires_at ≤ now) ∨
          process_alive probe e.pid = false))
    ∧ (∀ pid, process_alive probe pid = true ↔
        pid = 0 ∨ probe pid = .ok ∨ probe pid = .eperm)
    ∧ (∀ pid, process_alive probe pid = false ↔ pid ≠ 0 ∧ probe pid = .esrch)
    ∧ process_alive probe 0 = true := by
  have halive : ∀ pid, process_alive probe pid = true ↔
      pid = 0 ∨ probe pid = .ok ∨ probe pid = .eperm := by
    intro pid
    by_cases h0 : pid = 0
    · simp [process_alive, h0]
    · cases hp : probe pid <;> simp [process_alive, h0, hp]
  refine ⟨?_, halive, ?_, by simp [process_alive]⟩
  · intro e
    constructor
    · intro h
      have h1 := List.mem_filter.mp h
      refine ⟨h1.1, ?_⟩
      have h2 := h1.2
      simp only [keep_entry, Bool.and_eq_true, Bool.or_eq_true, beq_iff_eq,
        decide_eq_true_eq] at h2
      push_neg
      refine ⟨?_, by simp [h2.2]⟩
      intro hne
      rcases h2.1 with h3 | h3
      · exact absurd h3 hne
      · omega
    · intro h
      refine List.mem_filter.mpr ⟨h.1, ?_⟩
      have h2 := h.2
      push_neg at h2
      simp only [keep_entry, Bool.and_eq_true, Bool.or_eq_true, beq_iff_eq,
        decide_eq_true_eq]
      constructor
      · by_cases hz : e.expires_at = 0
        · exact Or.inl hz
        · exact Or.inr (by have := h2.1 hz; omega)
      · cases hb : process_alive probe e.pid with
        | true => rfl
        | false => exact absurd hb h2.2
  · intro pid
    constructor
    · intro h
      by_cases h0 : pid = 0
      · simp [process_alive, h0] at h
      · refine ⟨h0, ?_⟩
        cases hp : probe pid <;> simp [process_alive, h0, hp] at h ⊢
    · intro h
      simp [process_alive, h.1, h.2]

/-- C5: releasing a lease removes exactly the entries carrying its id
and preserves all others in order; a second release of the same id is a
no-op; the drop handler never propagates an error (a lock failure leaves
the ledger untouched, otherwise the removal is applied). -/
theorem claim_C5 (id : Nat) (s : StackState) :
    (∀ e, e ∈ (release_entry id s).entries ↔ e ∈ s.entries ∧ e.id ≠ id)
    ∧ (release_entry id s).entries.Sublist s.entries
    ∧ (release_entry id s).next_id = s.next_id
    ∧ release_entry id (release_entry id s) = release_entry id s
    ∧ stack_guard_drop false id s = s
    ∧ stack_guard_drop true id s = release_entry id s := by
  refine ⟨?_, ?_, rfl, ?_, rfl, rfl⟩
  · intro e
    simp [release_entry, List.mem_filter]
  · exact List.filter_sublist _
  · simp only [release_entry]
    exact congrArg _ (filter_idem _ _)

/-- C4 counterexample: the claim says pruning is applied before every
ledger read used for offset computation "including the Placement
Poller's per-cadence offset recomputation", but `stack_offset_for_id`
does not prune: on a ledger holding an entry already expired at
`now = 10` (id 1, `expires_at = 5`, height+gap = 60) the poller's read
returns 60 while the prune-first read returns 0. -/
theorem claim_C4_cex :
    stack_offset_for_id (StackGuard.mk 2 "top")
        (StackState.mk 3
          [⟨1, "top", 50, 10, 5, 0, 0, none, none, ""⟩,
           ⟨2, "top", 30, 5, 0, 0, 0, none, none, ""⟩]) = 60
    ∧ stack_offset_for_id (StackGuard.mk 2 "top")
        (prune_entries (fun _ => .ok) 10
          (StackState.mk 3
            [⟨1, "top", 50, 10, 5, 0, 0, none, none, ""⟩,
             ⟨2, "top", 30, 5, 0, 0, 0, none, none, ""⟩])) = 0
    ∧ (60 : Int) ≠ 0 := by
  decide

/-- C4 (amended): pruning is idempotent, and the ledger reads of the
reserve offset computation, of listing and of clearing are performed on
the pruned ledger (pre-pruning the state changes none of them); the
Placement Poller's recomputation `stack_offset_for_id`, however, reads
the ledger without pruning (see the counterexample). -/
theorem claim_C4 (probe : Nat → ProbeResult) (term : Nat → SigResult) (now : Nat)
    (sel : ClearSelector) (r : ReserveReq) (s : StackState) :
    prune_entries probe now (prune_entries probe now s) = prune_entries probe now s
    ∧ list_active_entries probe now (prune_entries probe now s)
        = list_active_entries probe now s
    ∧ reserve_stack_slot probe r (prune_entries probe r.now s) = reserve_stack_slot probe r s
    ∧ clear_active_entries probe term now sel (prune_entries probe now s)
        = clear_active_entries probe term now sel s := by
  have hidem : ∀ n : Nat, prune_entries probe n (prune_entries probe n s)
      = prune_entries probe n s := by
    intro n
    exact congrArg (fun l => { s with entries := l }) (filter_idem (keep_entry probe n) s.entries)
  refine ⟨hidem now, ?_, ?_, ?_⟩
  · show (prune_entries probe now (prune_entries probe now s)).entries = _
    rw [hidem now]
    rfl
  · rw [reserve_eq, reserve_eq]
    show (reserve_offset_loop _ ((prune_entries probe r.now (prune_entries probe r.now s)).entries), _,
        ({ next_id := _, entries := (prune_entries probe r.now (prune_entries probe r.now s)).entries ++ _ } : StackState)) = _
    rw [hidem r.now]
    rfl
  · show (match clear_loop term sel (prune_entries probe now (prune_entries probe now s)).entries with
      | .error _ => Except.error ()
      | .ok out => Except.ok (out.1, { prune_entries probe now (prune_entries probe now s) with entries := out.2 })) = _
    rw [hidem now]
    rfl

/-- C6: `load_state` returns the empty ledger (`next_id = 1`, no
entries), never an error, when the backing file is absent, blank, not
JSON at all, or JSON that fails to deserialize as a `StackState`. -/
theorem claim_C6 :
    load_state .absent = { next_id := 1, entries := [] }
    ∧ load_state .blank = { next_id := 1, entries := [] }
    ∧ load_state .invalid = { next_id := 1, entries := [] }
    ∧ ∀ j, decode_state j = none →
        load_state (.parsed j) = { next_id := 1, entries := [] } := by
  refine ⟨rfl, rfl, rfl, ?_⟩
  intro j h
  simp [load_state, h, StackState.default]

lemma clear_loop_ok (term : Nat → SigResult) (sel : ClearSelector) :
    ∀ entries : List StackEntry,
      (∀ e ∈ entries, clear_matches e sel = true → send_sigterm term e.pid = .ok ()) →
      clear_loop term sel entries
        = .ok ((entries.filter (fun e => clear_matches e sel)).length,
               entries.filter (fun e => !clear_matches e sel)) := by
  intro entries
  induction entries with
  | nil => intro _; rfl
  | cons e rest ih =>
    intro h
    have hrest := ih (fun x hx => h x (List.mem_cons_of_mem e hx))
    cases hm : clear_matches e sel with
    | true =>
      have hs : send_sigterm term e.pid = .ok () := h e (List.mem_cons_self e rest) hm
      simp [clear_loop, hm, hs, hrest, List.filter_cons]
    | false =>
      simp [clear_loop, hm, hrest, List.filter_cons]

/-- C7: when every matching entry's termination signal succeeds or fails
with `ESRCH` (or its pid is 0), `clear` prunes, removes exactly the
matching entries (in order), returns their count, and persists the rest
with the counter untouched; an `ESRCH` failure of the signal is
swallowed by `send_sigterm`; and in the §8 scenario, `clear by id 2`
removes only the id-2 entry and returns count 1 even though its owner
pid answers `ESRCH`. -/
theorem claim_C7 (probe : Nat → ProbeResult) (term : Nat → SigResult) (now : Nat)
    (sel : ClearSelector) (s : StackState)
    (h : ∀ e ∈ (prune_entries probe now s).entries,
        clear_matches e sel = true → e.pid = 0 ∨ term e.pid = .ok ∨ term e.pid = .esrch) :
    clear_active_entries probe term now sel s
      = .ok (((prune_entries probe now s).entries.filter
            (fun e => clear_matches e sel)).length,
          { next_id := s.next_id
          , entries := (prune_entries probe now s).entries.filter
              (fun e => !clear_matches e sel) })
    ∧ (∀ pid, term pid = .esrch → send_sigterm term pid = .ok ())
    ∧ clear_active_entries (fun _ => .ok) (fun _ => .esrch) 100 (.id 2)
        (StackState.mk 3
          [⟨1, "top", 50, 10, 99999, 10, 42, none, none, ""⟩,
           ⟨2, "top", 30, 5, 99999, 11, 43, none, none, ""⟩])
      = .ok (1, StackState.mk 3 [⟨1, "top", 50, 10, 99999, 10, 42, none, none, ""⟩]) := by
  refine ⟨?_, ?_, rfl⟩
  · have hsend : ∀ e ∈ (prune_entries probe now s).entries,
        clear_matches e sel = true → send_sigterm term e.pid = .ok () := by
      intro e he hm
      rcases h e he hm with h0 | h1 | h1
      · simp [send_sigterm, h0]
      · by_cases hp : e.pid = 0 <;> simp [send_sigterm, hp, h1]
      · by_cases hp : e.pid = 0 <;> simp [send_sigterm, hp, h1]
    have hloop := clear_loop_ok term sel (prune_entries probe now s).entries hsend
    show (match clear_loop term sel (prune_entries probe now s).entries with
      | .error _ => Except.error ()
      | .ok out => Except.ok (out.1,
          { prune_entries probe now s with entries := out.2 })) = _
    rw [hloop]
    rfl
  · intro pid hp
    by_cases h0 : pid = 0 <;> simp [send_sigterm, h0, hp]

/-- C7 witness: the general clause applied to the §8 ledger, with the
signal oracle answering `ESRCH` for every pid: the hypothesis holds and
clear-by-id-2 returns count 1 and keeps only the id-1 entry. -/
theorem claim_C7_witness :
    (∀ e ∈ (prune_entries (fun _ => ProbeResult.ok) 100
        (StackState.mk 3
          [⟨1, "top", 50, 10, 99999, 10, 42, none, none, ""⟩,
           ⟨2, "top", 30, 5, 99999, 11, 43, none, none, ""⟩])).entries,
        clear_matches e (.id 2) = true →
          e.pid = 0 ∨ (fun _ => SigResult.esrch) e.pid = .ok
            ∨ (fun _ => SigResult.esrch) e.pid = .esrch)
    ∧ clear_active_entries (fun _ => ProbeResult.ok) (fun _ => SigResult.esrch) 100 (.id 2)
        (StackState.mk 3
          [⟨1, "top", 50, 10, 99999, 10, 42, none, none, ""⟩,
           ⟨2, "top", 30, 5, 99999, 11, 43, none, none, ""⟩])
      = .ok (1, StackState.mk 3 [⟨1, "top", 50, 10, 99999, 10, 42, none, none, ""⟩]) :=
  ⟨by decide,
    (claim_C7 (fun _ => ProbeResult.ok) (fun _ => SigResult.esrch) 100 (.id 2)
      (StackState.mk 3
        [⟨1, "top", 50, 10, 99999, 10, 42, none, none, ""⟩,
         ⟨2, "top", 30, 5, 99999, 11, 43, none, none, ""⟩]) (by decide)).1⟩

/-- C8: the reserved entry's `expires_at` is `now + ttl` with `u64`
saturating addition (exact whenever the sum does not overflow, and never
exceeding `u64::MAX`), and a ttl of 0 skips stacking entirely in
`run_alert`: no entry is appended, no guard is created and the offset
stays 0. -/
theorem claim_C8 (probe : Nat → ProbeResult) :
    (∀ r s, ∃ e, (reserve_stack_slot probe r s).2.2.entries
        = (prune_entries probe r.now s).entries ++ [e]
        ∧ e.expires_at = saturating_add_u64 r.now r.timeout_ms
        ∧ e.created_at = r.now)
    ∧ (∀ a b, a + b < U64 → saturating_add_u64 a b = a + b)
    ∧ (∀ a b, saturating_add_u64 a b ≤ U64 - 1)
    ∧ (∀ (stack : Bool) r s, r.timeout_ms = 0 →
        run_alert_stacking probe stack r s = (0, none, s)) := by
  refine ⟨?_, ?_, ?_, ?_⟩
  · intro r s
    exact ⟨new_entry r (prune_entries probe r.now s).next_id, rfl, rfl, rfl⟩
  · intro a b hab
    exact Nat.min_eq_left (by omega)
  · intro a b
    exact Nat.min_le_right _ _
  · intro stack r s h0
    simp [run_alert_stacking, h0]

/-- C8 witness: at `now = 1000`, `ttl = 5000` the saturating sum is the
exact sum 6000, and a zero-ttl alert on the empty ledger reserves
nothing. -/
theorem claim_C8_witness :
    (1000 + 5000 < U64 ∧ saturating_add_u64 1000 5000 = 1000 + 5000)
    ∧ ((⟨.top, 50, 10, 0, 1000, none, none, "", 7⟩ : ReserveReq).timeout_ms = 0
        ∧ run_alert_stacking (fun _ => .ok) true
            ⟨.top, 50, 10, 0, 1000, none, none, "", 7⟩ StackState.default
          = (0, none, StackState.default)) :=
  ⟨⟨by norm_num [U64], (claim_C8 (fun _ => .ok)).2.1 1000 5000 (by norm_num [U64])⟩,
   ⟨rfl, (claim_C8 (fun _ => .ok)).2.2.2 true ⟨.top, 50, 10, 0, 1000, none, none, "", 7⟩
      StackState.default rfl⟩⟩

lemma as_u64_bound : ∀ {j : Json} {n : Nat}, as_u64 j = some n → n < U64
  | .num (Int.ofNat m), n, h => by
    simp only [as_u64] at h
    split at h
    · next hc =>
      cases h
      simpa [U64] using hc
    · cases h
  | .num (Int.negSucc _), _, h => by cases h
  | .null, _, h => by cases h
  | .bool _, _, h => by cases h
  | .str _, _, h => by cases h
  | .arr _, _, h => by cases h
  | .obj _, _, h => by cases h

lemma as_u32_bound : ∀ {j : Json} {n : Nat}, as_u32 j = some n → n < 2 ^ 32
  | .num (Int.ofNat m), n, h => by
    simp only [as_u32] at h
    split at h
    · next hc =>
      cases h
      exact hc
    · cases h
  | .num (Int.negSucc _), _, h => by cases h
  | .null, _, h => by cases h
  | .bool _, _, h => by cases h
  | .str _, _, h => by cases h
  | .arr _, _, h => by cases h
  | .obj _, _, h => by cases h

lemma as_i32_range : ∀ {j : Json} {n : Int}, as_i32 j = some n →
    -(2 ^ 31) ≤ n ∧ n < 2 ^ 31
  | .num (Int.ofNat m), n, h => by
    simp only [as_i32] at h
    split at h
    · next hc =>
      cases h
      simp only [Int.ofNat_eq_natCast]
      exact ⟨by omega, by omega⟩
    · cases h
  | .num (Int.negSucc m), n, h => by
    simp only [as_i32] at h
    split at h
    · next hc =>
      cases h
      simp only [Int.negSucc_eq]
      exact ⟨by omega, by omega⟩
    · cases h
  | .null, _, h => by cases h
  | .bool _, _, h => by cases h
  | .str _, _, h => by cases h
  | .arr _, _, h => by cases h
  | .obj _, _, h => by cases h

lemma field_u64_bound {fs : List (String × Json)} {key : String} {n : Nat}
    (h : field_u64 fs key = some n) : n < U64 := by
  obtain ⟨j1, _, hj1⟩ := Option.bind_eq_some.mp h
  exact as_u64_bound hj1

lemma field_i32_range {fs : List (String × Json)} {key : String} {n : Int}
    (h : field_i32 fs key = some n) : -(2 ^ 31) ≤ n ∧ n < 2 ^ 31 := by
  obtain ⟨j1, _, hj1⟩ := Option.bind_eq_some.mp h
  exact as_i32_range hj1

lemma field_u64_default_bound {fs : List (String × Json)} {key : String} {n : Nat}
    (h : field_u64_default fs key = some n) : n < U64 := by
  simp only [field_u64_default] at h
  split at h
  · cases h
    simp [U64]
  · exact as_u64_bound h

lemma field_u32_default_bound {fs : List (String × Json)} {key : String} {n : Nat}
    (h : field_u32_default fs key = some n) : n < 2 ^ 32 := by
  simp only [field_u32_default] at h
  split at h
  · cases h
    simp
  · exact as_u32_bound h

lemma decode_entry_wf : ∀ {j : Json} {e : StackEntry},
    decode_entry j = some e → EntryWF e
  | .obj fs, e, h => by
    simp only [decode_entry, Option.bind_eq_bind] at h
    rw [Option.bind_eq_some] at h
    obtain ⟨idv, hid, h⟩ := h
    rw [Option.bind_eq_some] at h
    obtain ⟨posv, _, h⟩ := h
    rw [Option.bind_eq_some] at h
    obtain ⟨hv, hh, h⟩ := h
    rw [Option.bind_eq_some] at h
    obtain ⟨gv, hg, h⟩ := h
    rw [Option.bind_eq_some] at h
    obtain ⟨exv, hex, h⟩ := h
    rw [Option.bind_eq_some] at h
    obtain ⟨cav, hca, h⟩ := h
    rw [Option.bind_eq_some] at h
    obtain ⟨pidv, hpid, h⟩ := h
    rw [Option.bind_eq_some] at h
    obtain ⟨nv, _, h⟩ := h
    rw [Option.bind_eq_some] at h
    obtain ⟨cv, _, h⟩ := h
    rw [Option.bind_eq_some] at h
    obtain ⟨sv, _, h⟩ := h
    cases h
    obtain ⟨hhl, hhr⟩ := field_i32_range hh
    obtain ⟨hgl, hgr⟩ := field_i32_range hg
    exact ⟨field_u64_bound hid, field_u64_bound hex, field_u64_default_bound hca,
      field_u32_default_bound hpid, hhl, hhr, hgl, hgr⟩
  | .null, _, h => by cases h
  | .bool _, _, h => by cases h
  | .num _, _, h => by cases h
  | .str _, _, h => by cases h
  | .arr _, _, h => by cases h

lemma decode_entries_wf : ∀ {xs : List Json} {es : List StackEntry},
    decode_entries xs = some es → ∀ e ∈ es, EntryWF e
  | [], es, h => by
    cases h
    intro e he
    cases he
  | j :: rest, es, h => by
    simp only [decode_entries] at h
    split at h
    · cases h
    · next e1 he1 =>
      split at h
      · cases h
      · next es1 hes1 =>
        cases h
        intro e he
        cases List.mem_cons.mp he with
        | inl hh => exact hh ▸ decode_entry_wf he1
        | inr hh => exact decode_entries_wf hes1 e hh

lemma field_entries_wf {fs : List (String × Json)} {es : List StackEntry}
    (h : field_entries fs = some es) : ∀ e ∈ es, EntryWF e := by
  simp only [field_entries] at h
  split at h
  · exact decode_entries_wf h
  · cases h

lemma decode_state_wf : ∀ {j : Json} {s : StackState},
    decode_state j = some s → StateWF s
  | .obj fs, s, h => by
    simp only [decode_state, Option.bind_eq_bind] at h
    rw [Option.bind_eq_some] at h
    obtain ⟨nv, hn, h⟩ := h
    rw [Option.bind_eq_some] at h
    obtain ⟨esv, hes, h⟩ := h
    cases h
    exact ⟨field_u64_bound hn, field_entries_wf hes⟩
  | .null, _, h => by cases h
  | .bool _, _, h => by cases h
  | .num _, _, h => by cases h
  | .str _, _, h => by cases h
  | .arr _, _, h => by cases h

lemma as_u64_encode (n : Nat) (h : n < U64) : as_u64 (.num n) = some n := by
  show as_u64 (.num (Int.ofNat n)) = some n
  simp only [as_u64]
  rw [if_pos (by simpa [U64] using h)]

lemma as_u32_encode (n : Nat) (h : n < 2 ^ 32) : as_u32 (.num n) = some n := by
  show as_u32 (.num (Int.ofNat n)) = some n
  simp only [as_u32]
  rw [if_pos h]

lemma as_i32_encode (n : Int) (h1 : -(2 ^ 31) ≤ n) (h2 : n < 2 ^ 31) :
    as_i32 (.num n) = some n := by
  cases n with
  | ofNat m =>
    simp only [Int.ofNat_eq_natCast] at h2
    simp only [as_i32]
    rw [if_pos (by omega)]
  | negSucc m =>
    simp only [Int.negSucc_eq] at h1
    simp only [as_i32]
    rw [if_pos (by omega)]

lemma as_opt_string_encode (o : Option String) :
    as_opt_string (encode_opt_string o) = some o := by
  cases o <;> rfl

lemma decode_encode_entry (e : StackEntry) (hwf : EntryWF e) :
    decode_entry (encode_entry e) = some e := by
  obtain ⟨h1, h2, h3, h4, h5, h6, h7, h8⟩ := hwf
  have k1 : field_u64 (encode_fields e) "id" = some e.id := by
    simp [field_u64, encode_fields, jlookup, as_u64_encode _ h1]
  have k2 : field_string (encode_fields e) "position" = some e.position := by
    simp [field_string, encode_fields, jlookup, as_string]
  have k3 : field_i32 (encode_fields e) "height" = some e.height := by
    simp [field_i32, encode_fields, jlookup, as_i32_encode _ h5 h6]
  have k4 : field_i32 (encode_fields e) "gap" = some e.gap := by
    simp [field_i32, encode_fields, jlookup, as_i32_encode _ h7 h8]
  have k5 : field_u64 (encode_fields e) "expires_at" = some e.expires_at := by
    simp [field_u64, encode_fields, jlookup, as_u64_encode _ h2]
  have k6 : field_u64_default (encode_fields e) "created_at" = some e.created_at := by
    simp [field_u64_default, encode_fields, jlookup, as_u64_encode _ h3]
  have k7 : field_u32_default (encode_fields e) "pid" = some e.pid := by
    simp [field_u32_default, encode_fields, jlookup, as_u32_encode _ h4]
  have k8 : field_opt_string (encode_fields e) "name" = some e.name := by
    simp [field_opt_string, encode_fields, jlookup, as_opt_string_encode]
  have k9 : field_opt_string (encode_fields e) "class" = some e.cls := by
    simp [field_opt_string, encode_fields, jlookup, as_opt_string_encode]
  have k10 : field_string_default (encode_fields e) "summary" = some e.summary := by
    simp [field_string_default, encode_fields, jlookup, as_string]
  show decode_entry (.obj (encode_fields e)) = some e
  simp only [decode_entry, Option.bind_eq_bind, k1, k2, k3, k4, k5, k6, k7, k8, k9, k10,
    Option.some_bind]

lemma decode_encode_entries (es : List StackEntry) (hwf : ∀ e ∈ es, EntryWF e) :
    decode_entries (es.map encode_entry) = some es := by
  induction es with
  | nil => rfl
  | cons e rest ih =>
    have he := decode_encode_entry e (hwf e (List.mem_cons_self e rest))
    have hr := ih (fun x hx => hwf x (List.mem_cons_of_mem e hx))
    simp only [List.map_cons, decode_entries, he, hr]

lemma decode_encode_state (s : StackState) (hwf : StateWF s) :
    decode_state (encode_state s) = some s := by
  obtain ⟨h1, h2⟩ := hwf
  have k1 : field_u64 [("next_id", Json.num s.next_id),
      ("entries", Json.arr (s.entries.map encode_entry))] "next_id" = some s.next_id := by
    simp [field_u64, jlookup, as_u64_encode _ h1]
  have k2 : field_entries [("next_id", Json.num s.next_id),
      ("entries", Json.arr (s.entries.map encode_entry))] = some s.entries := by
    simp [field_entries, jlookup, decode_encode_entries s.entries h2]
  show decode_state (.obj _) = some s
  simp only [decode_state, Option.bind_eq_bind, k1, k2, Option.some_bind]

/-- C9: for every ledger file that parses into the data model,
load-then-save is a fixed point up to serialization: the loaded state is
exactly the parsed one, and saving and re-loading it loses no field of
any entry and preserves the `next_id` counter. -/
theorem claim_C9 (j : Json) (s : StackState) (h : decode_state j = some s) :
    load_state (.parsed j) = s
    ∧ decode_state (encode_state s) = some s
    ∧ load_state (save_state (load_state (.parsed j))) = load_state (.parsed j) := by
  have hLj : load_state (.parsed j) = s := by simp [load_state, h]
  have hwf : StateWF s := decode_state_wf h
  have hrt : decode_state (encode_state s) = some s := decode_encode_state s hwf
  refine ⟨hLj, hrt, ?_⟩
  rw [hLj]
  simp [save_state, load_state, hrt]

/-- C9 witness: a concrete one-entry ledger JSON value parses, and the
load/save round trip fixes it with every field intact. -/
theorem claim_C9_witness :
    decode_state (encode_state (StackState.mk 5
        [⟨1, "top", 50, 10, 6000, 1000, 7, some "n", some "c", "hello"⟩]))
      = some (StackState.mk 5
        [⟨1, "top", 50, 10, 6000, 1000, 7, some "n", some "c", "hello"⟩])
    ∧ load_state (save_state (load_state (.parsed (encode_state (StackState.mk 5
        [⟨1, "top", 50, 10, 6000, 1000, 7, some "n", some "c", "hello"⟩])))))
      = load_state (.parsed (encode_state (StackState.mk 5
        [⟨1, "top", 50, 10, 6000, 1000, 7, some "n", some "c", "hello"⟩]))) := by
  have h : decode_state (encode_state (StackState.mk 5
      [⟨1, "top", 50, 10, 6000, 1000, 7, some "n", some "c", "hello"⟩]))
      = some (StackState.mk 5
        [⟨1, "top", 50, 10, 6000, 1000, 7, some "n", some "c", "hello"⟩]) := by
    decide
  exact ⟨h, (claim_C9 _ _ h).2.2⟩

/-- C6 witness: the file content `"not json"`, read as the JSON string
value it would be if quoted (and the unquoted raw text is the `invalid`
case settled by `rfl` inside the claim), loads as the empty ledger. -/
theorem claim_C6_witness :
    decode_state (Json.str "not json") = none ∧
      load_state (FileData.parsed (Json.str "not json")) = { next_id := 1, entries := [] } :=
  ⟨rfl, claim_C6.2.2.2 (Json.str "not json") rfl⟩

lemma take_bytes_len_le (n : Nat) : ∀ l : List Char, utf8_len (take_bytes n l) ≤ n := by
  intro l
  induction l generalizing n with
  | nil => simp [take_bytes, utf8_len]
  | cons c cs ih =>
    by_cases hc : c.utf8Size ≤ n
    · have h2 := ih (n - c.utf8Size)
      simp only [take_bytes, hc, if_true, utf8_len, List.map_cons, List.sum_cons] at h2 ⊢
      omega
    · simp [take_bytes, hc, utf8_len]

lemma take_bytes_sublist (n : Nat) : ∀ l : List Char, (take_bytes n l).Sublist l := by
  intro l
  induction l generalizing n with
  | nil => simp [take_bytes]
  | cons c cs ih =>
    by_cases hc : c.utf8Size ≤ n
    · simp only [take_bytes, hc, if_true]
      exact (ih (n - c.utf8Size)).cons₂ c
    · simp only [take_bytes, hc, if_false]
      exact List.nil_sublist _

set_option maxRecDepth 16384 in
/-- C10 counterexample: the claim says `message_summary` never panics,
but for a first line of 119 ASCII characters followed by a two-byte
character the 120-byte cut point falls inside the final character, and
`String::truncate(120)` panics (modelled as `none`). -/
theorem claim_C10_cex :
    message_summary (List.replicate 119 'a' ++ ['é']) = none := by
  decide

/-- C10 (amended): `message_summary` returns the trimmed first line when
it is at most 120 bytes; any summary it returns is the trimmed first
line or its 120-byte aligned cut, is at most 120 bytes, and is drawn
from the trimmed first line in order; and it panics exactly when the
trimmed first line exceeds 120 bytes and byte 120 is not a character
boundary. -/
theorem claim_C10 (msg : List Char) :
    (utf8_len (rust_trim (first_line msg)) ≤ 120 →
        message_summary msg = some (rust_trim (first_line msg)))
    ∧ (∀ r, message_summary msg = some r →
        (r = rust_trim (first_line msg) ∨ r = take_bytes 120 (rust_trim (first_line msg)))
        ∧ utf8_len r ≤ 120 ∧ r.Sublist (rust_trim (first_line msg)))
    ∧ (message_summary msg = none ↔
        120 < utf8_len (rust_trim (first_line msg)) ∧
          utf8_len (take_bytes 120 (rust_trim (first_line msg))) ≠ 120) := by
  refine ⟨?_, ?_, ?_, ?_⟩
  · intro h
    simp only [message_summary]
    rw [if_pos h]
  · intro r h
    by_cases h1 : utf8_len (rust_trim (first_line msg)) ≤ 120
    · simp only [message_summary] at h
      rw [if_pos h1] at h
      cases h
      exact ⟨Or.inl rfl, h1, List.Sublist.refl _⟩
    · by_cases h2 : utf8_len (take_bytes 120 (rust_trim (first_line msg))) = 120
      · simp only [message_summary] at h
        rw [if_neg h1, if_pos h2] at h
        cases h
        exact ⟨Or.inr rfl, by omega, take_bytes_sublist _ _⟩
      · simp only [message_summary] at h
        rw [if_neg h1, if_neg h2] at h
        cases h
  · intro hn
    by_cases h1 : utf8_len (rust_trim (first_line msg)) ≤ 120
    · simp only [message_summary] at hn
      rw [if_pos h1] at hn
      cases hn
    · by_cases h2 : utf8_len (take_bytes 120 (rust_trim (first_line msg))) = 120
      · simp only [message_summary] at hn
        rw [if_neg h1, if_pos h2] at hn
        cases hn
      · exact ⟨by omega, h2⟩
  · intro hc
    simp only [message_summary]
    rw [if_neg (by omega), if_neg hc.2]

/-- C10 witness: for the message `"hi\nx"` the trimmed first line is
within 120 bytes and the summary is `"hi"`. -/
theorem claim_C10_witness :
    utf8_len (rust_trim (first_line ['h', 'i', '\n', 'x'])) ≤ 120
    ∧ message_summary ['h', 'i', '\n', 'x']
        = some (rust_trim (first_line ['h', 'i', '\n', 'x']))
    ∧ message_summary ['h', 'i', '\n', 'x'] = some ['h', 'i'] :=
  ⟨by decide, (claim_C10 ['h', 'i', '\n', 'x']).1 (by decide), by decide⟩

end Creak
